import Mathlib

/-
Verification development for the Evilginx_monitor repository.

The repository contains two near-identical Go source variants
(`notify.go` and an unnamed second file, called `Part000` here).  Both hold
a token-normalization pipeline (`extractTokens`, `processAllTokens`) and a
per-session notification dispatcher (`Notify`).  This file gives a shallow
embedding of those functions and proves properties about them.

Modelling conventions:
  - Go maps are embedded as association lists; this fixes an iteration
    order (Go's map order is unspecified; the spec recommends a
    deterministic order for testability).
  - Go `interface{}` values coming from JSON are embedded as the inductive
    `JValue`; Go's nil interface is `JValue.null`.
  - `json.Unmarshal` of a payload string is embedded by the outcome of the
    parse (`RawPayload`): empty string, a successfully parsed group, or a
    parse failure.
-/

namespace EvilginxMonitor

/-- Dynamic (JSON-decoded) value stored in a leaf field map: Go
`interface{}`.  `null` is Go's nil interface (also the zero value);
`blob` stands for any other JSON value (number, array, object),
distinguished by an index so equality is decidable. -/
inductive JValue where
  | str (s : String)
  | jbool (b : Bool)
  | null
  | blob (n : Nat)
deriving DecidableEq, Repr

/-- One leaf field map of a raw token group: Go `map[string]interface{}`. -/
abbrev Leaf := List (String × JValue)

/-- A raw token group: Go `map[string]map[string]map[string]interface{}`,
a mapping domain → store key → leaf field map. -/
abbrev RawTokenGroup := List (String × List (String × Leaf))

/-- The `Token` struct of `notify.go` (identical in both source variants).
`ExpirationDate *int64` becomes `Option Int`; the two `interface{}` fields
become `JValue` with `JValue.null` as the zero value. -/
structure Token where
  name : String
  value : String
  domain : String
  hostOnly : Bool
  path : String
  secure : Bool
  httpOnly : Bool
  sameSite : String
  session : Bool
  firstPartyDomain : String
  partitionKey : JValue
  expirationDate : Option Int
  storeID : JValue
deriving DecidableEq, Repr

/-- Go type assertion `tokenData[k].(string)`: the string value if the key
is present with a string value, otherwise the zero value `""`. -/
def getStr (leaf : Leaf) (k : String) : String :=
  match leaf.lookup k with
  | some (JValue.str s) => s
  | _ => ""

/-- Go type assertion `tokenData[k].(bool)`: the boolean value if the key
is present with a boolean value, otherwise the zero value `false`. -/
def getBool (leaf : Leaf) (k : String) : Bool :=
  match leaf.lookup k with
  | some (JValue.jbool b) => b
  | _ => false

/-- Go `v, ok := tokenData[k]` followed by `t.F = v` on a field whose zero
value is the nil interface: the stored value if present, else `null`. -/
def getAny (leaf : Leaf) (k : String) : JValue :=
  (leaf.lookup k).getD JValue.null

/-- Body of the inner loop of `extractTokens` (`notify.go` lines 36-83):
builds one `Token` from a leaf field map and the (already stripped)
domain.  Field-by-field transcription of the Go assignments, including the
`storeId` / `StoreID` two-key resolution and the forced
`ExpirationDate = nil`. -/
def mkToken (domain : String) (leaf : Leaf) : Token :=
  { name := getStr leaf "Name"
    value := getStr leaf "Value"
    domain := domain
    hostOnly := getBool leaf "HostOnly"
    path := getStr leaf "Path"
    secure := getBool leaf "Secure"
    httpOnly := getBool leaf "HttpOnly"
    sameSite := getStr leaf "SameSite"
    session := getBool leaf "Session"
    firstPartyDomain := getStr leaf "FirstPartyDomain"
    partitionKey := getAny leaf "PartitionKey"
    expirationDate := none
    storeID :=
      match leaf.lookup "storeId" with
      | some v => v
      | none => (leaf.lookup "StoreID").getD JValue.null }

/-- Go `if len(domain) > 0 && domain[0] == '.' { domain = domain[1:] }`:
the domain is non-empty with first byte a dot exactly when its character
list starts with the one-byte character dot, and `domain[1:]` is then the
rest of the characters. -/
def stripLeadingDot (d : String) : String :=
  match d.data with
  | '.' :: rest => String.mk rest
  | _ => d

/-- Inner loop of `extractTokens` over one domain's store entries.  In the
Go source the strip-leading-dot statement reassigns the *loop variable*
`domain`, so the stripped domain is threaded into the next iteration; the
returned pair carries the final value of that variable together with the
produced tokens. -/
def extractGroup : String → List (String × Leaf) → String × List Token
  | d, [] => (d, [])
  | d, (_, leaf) :: rest =>
      let d1 := stripLeadingDot d
      let r := extractGroup d1 rest
      (r.1, mkToken d1 leaf :: r.2)

/-- The `extractTokens` function of `notify.go` (lines 31-87): outer loop
over domains, inner loop over store entries, appending every produced
token into one list. -/
def extractTokens : RawTokenGroup → List Token
  | [] => []
  | (d, g) :: rest => (extractGroup d g).2 ++ extractTokens rest

/-- One raw token payload string as seen by `processAllTokens`, embedded
by the outcome of `json.Unmarshal` on it: the empty string (skipped before
any parse), a string that parses to a raw token group, or a non-empty
string that fails to parse (carrying the parse error text). -/
inductive RawPayload where
  | empty
  | valid (g : RawTokenGroup)
  | invalid (msg : String)
deriving Repr

/-- Whether a payload is a non-empty, unparseable string. -/
def RawPayload.isInvalid : RawPayload → Bool
  | .invalid _ => true
  | _ => false

/-- The normalized token sequence a payload contributes when consolidation
succeeds: nothing for an empty payload, its extracted tokens otherwise. -/
def RawPayload.toTokens : RawPayload → List Token
  | .valid g => extractTokens g
  | _ => []

/-- Go `tokens[i].ExpirationDate = nil` applied to one token. -/
def clearExpiration (t : Token) : Token := { t with expirationDate := none }

/-- Loop body of `processAllTokens` (`notify.go` lines 94-112): skip empty
payloads, abort on the first parse failure (Go `return nil, err`),
otherwise extract, clear expiration dates, and append. -/
def processLoop : List Token → List RawPayload → Except String (List Token)
  | acc, [] => .ok acc
  | acc, p :: rest =>
      match p with
      | .empty => processLoop acc rest
      | .invalid msg => .error ("error parsing token JSON: " ++ msg)
      | .valid g => processLoop (acc ++ (extractTokens g).map clearExpiration) rest

/-- The `processAllTokens` function of `notify.go` (lines 90-115): folds
the loop over the four payloads in the fixed order session, HTTP, body,
custom. -/
def processAllTokens (sessionTokens httpTokens bodyTokens customTokens : RawPayload) :
    Except String (List Token) :=
  processLoop [] [sessionTokens, httpTokens, bodyTokens, customTokens]

/-- Total number of leaf store entries in a raw token group. -/
def leafCount (input : RawTokenGroup) : Nat :=
  (input.map (fun p => p.2.length)).sum

namespace Part000

/-- Go type assertion on a string field, as in the second source variant
(`part_000` lines 36-41); textually identical to the first variant. -/
def getStr (leaf : Leaf) (k : String) : String :=
  match leaf.lookup k with
  | some (JValue.str s) => s
  | _ => ""

/-- Go type assertion on a boolean field, second source variant. -/
def getBool (leaf : Leaf) (k : String) : Bool :=
  match leaf.lookup k with
  | some (JValue.jbool b) => b
  | _ => false

/-- Present-key passthrough on an untyped field, second source variant. -/
def getAny (leaf : Leaf) (k : String) : JValue :=
  (leaf.lookup k).getD JValue.null

/-- Inner-loop token construction of `extractTokens` in `part_000`
(lines 34-81); textually identical to the first variant. -/
def mkToken (domain : String) (leaf : Leaf) : Token :=
  { name := getStr leaf "Name"
    value := getStr leaf "Value"
    domain := domain
    hostOnly := getBool leaf "HostOnly"
    path := getStr leaf "Path"
    secure := getBool leaf "Secure"
    httpOnly := getBool leaf "HttpOnly"
    sameSite := getStr leaf "SameSite"
    session := getBool leaf "Session"
    firstPartyDomain := getStr leaf "FirstPartyDomain"
    partitionKey := getAny leaf "PartitionKey"
    expirationDate := none
    storeID :=
      match leaf.lookup "storeId" with
      | some v => v
      | none => (leaf.lookup "StoreID").getD JValue.null }

/-- Leading-dot removal of `part_000` lines 43-45. -/
def stripLeadingDot (d : String) : String :=
  match d.data with
  | '.' :: rest => String.mk rest
  | _ => d

/-- Inner loop of `part_000`'s `extractTokens`, threading the reassigned
`domain` loop variable exactly as in the first variant. -/
def extractGroup : String → List (String × Leaf) → String × List Token
  | d, [] => (d, [])
  | d, (_, leaf) :: rest =>
      let d1 := stripLeadingDot d
      let r := extractGroup d1 rest
      (r.1, mkToken d1 leaf :: r.2)

/-- The `extractTokens` function of `part_000` (lines 29-85). -/
def extractTokens : RawTokenGroup → List Token
  | [] => []
  | (d, g) :: rest => (extractGroup d g).2 ++ extractTokens rest

/-- Go `tokens[i].ExpirationDate = nil` of `part_000` lines 104-106. -/
def clearExpiration (t : Token) : Token := { t with expirationDate := none }

/-- Loop body of `part_000`'s `processAllTokens` (lines 91-109). -/
def processLoop : List Token → List RawPayload → Except String (List Token)
  | acc, [] => .ok acc
  | acc, p :: rest =>
      match p with
      | .empty => processLoop acc rest
      | .invalid msg => .error ("error parsing token JSON: " ++ msg)
      | .valid g => processLoop (acc ++ (extractTokens g).map clearExpiration) rest

/-- The `processAllTokens` function of `part_000` (lines 87-112). -/
def processAllTokens (sessionTokens httpTokens bodyTokens customTokens : RawPayload) :
    Except String (List Token) :=
  processLoop [] [sessionTokens, httpTokens, bodyTokens, customTokens]

end Part000

/-- Modelled from the spec: the `Session` type is not among the provided
source files (only its use in `Notify` and `createTxtFile` is); this is
the SessionSnapshot of spec §3 — identifier, credentials, request
metadata, and up to four raw token groups.  The four groups are stored
already decoded; `createTxtFile` marshals them to JSON and
`processAllTokens` decodes them back, a round trip that always succeeds
and is the identity on the group. -/
structure Session where
  ID : String
  username : String
  password : String
  landingURL : String
  userAgent : String
  remoteAddr : String
  createTime : Int
  tokens : RawTokenGroup
  httpTokens : RawTokenGroup
  bodyTokens : RawTokenGroup
  custom : RawTokenGroup
deriving DecidableEq, Repr

/-- The `formatSessionMessage` function of `notify.go` (lines 224-250):
completeness check, status symbol, and the formatted message text. -/
def formatSessionMessage (s : Session) : String :=
  let sessionComplete := s.username != "" && s.password != "" && decide (0 < s.tokens.length)
  let statusSymbol := if sessionComplete then "✅" else "🚫"
  statusSymbol ++ "🔐 ====== Evolcorp MDR ====== 🔐" ++ statusSymbol ++ "\n\n" ++
  "👤 Username: 🪤 " ++ s.username ++ "\n" ++
  "🔑 Password: 🪤 " ++ s.password ++ "\n" ++
  "🌐 Landing URL: 🔗 " ++ s.landingURL ++ "\n\n" ++
  "🖥️ User-Agent: " ++ s.userAgent ++ "\n" ++
  "🌍 IP Address: " ++ s.remoteAddr ++ "\n" ++
  "🕒 Timestamp: " ++ toString s.createTime ++ "\n\n" ++
  "📦 Token Delivery. 🍪 incoming.\n"

/-- Token-consolidation step of `createTxtFile` (`notify.go` lines
152-179): the four session token groups are marshalled to JSON and handed
to `processAllTokens`.  Marshalling a Go map never fails and the produced
strings always unmarshal back to the same nested maps (and are never the
empty string: a nil map marshals to the string `null`, which decodes to
the empty group), so each payload is embedded as `RawPayload.valid` of
the group itself. -/
def createTxtFileTokens (s : Session) : Except String (List Token) :=
  processAllTokens (.valid s.tokens) (.valid s.httpTokens)
    (.valid s.bodyTokens) (.valid s.custom)

/-- The full consolidated token list `createTxtFile` embeds in the
artifact for a given snapshot. -/
def consolidated (s : Session) : List Token :=
  extractTokens s.tokens ++ extractTokens s.httpTokens ++
    extractTokens s.bodyTokens ++ extractTokens s.custom

/-- Go `processedSessions[id]` on the model of the map as an association
list of marked identifiers (marking conses the identifier on). -/
def lookupFlag : List String → String → Bool
  | [], _ => false
  | x :: xs, id => x == id || lookupFlag xs id

/-- Go `sessionMessageMap[id]` on the association-list model of the map
(updates cons on the front, shadowing older entries). -/
def lookupHandle : List (String × Int) → String → Option Int
  | [], _ => none
  | (k, v) :: rest, id => if k == id then some v else lookupHandle rest id

/-- The two package-level maps of `notify.go` (lines 118-122):
`processedSessions` and `sessionMessageMap`.  The mutex is not part of the
state; atomicity of locked regions is expressed by which updates are a
single step of the models below. -/
structure RegState where
  processed : List String
  handles : List (String × Int)
deriving DecidableEq, Repr

/-- Observable calls made to the external Telegram channel client
(spec §6 Channel Client), plus the outcome of the locked check-and-set on
`processedSessions`, recorded for counting. -/
inductive Event where
  | beginTrue (id : String)
  | beginFalse (id : String)
  | create (id : String) (tokens : List Token) (body : String)
  | edit (id : String) (handle : Int) (tokens : List Token) (body : String)
deriving DecidableEq, Repr

/-- Modelled from the spec: outcome of the external channel's create call
(`sendTelegramNotification`, whose source is not under the provided
files; spec §6 gives its interface — on success it returns a message
handle usable for later edits). -/
inductive ChanOutcome where
  | createOk (messageID : Int)
  | createFail
deriving DecidableEq, Repr

/-- Sequential model of `Notify` in `notify.go` (lines 254-303), one call
run to completion.  Returns the updated registry and the list of channel
calls made.  `loadConfig` success is assumed (its failure returns before
any registry access or channel call); the edit call's own error is only
logged in Go and changes nothing.  Temporary-file creation is assumed to
succeed; `createTxtFileTokens` carries the fallible consolidation. -/
def notify (st : RegState) (s : Session) (out : ChanOutcome) : RegState × List Event :=
  if lookupFlag st.processed s.ID then
    match lookupHandle st.handles s.ID with
    | some mid =>
        match createTxtFileTokens s with
        | .error _ => (st, [])
        | .ok ts => (st, [Event.edit s.ID mid ts (formatSessionMessage s)])
    | none => (st, [])
  else
    let st1 : RegState := ⟨s.ID :: st.processed, st.handles⟩
    match createTxtFileTokens s with
    | .error _ => (st1, [])
    | .ok ts =>
        match out with
        | .createOk mid =>
            (⟨st1.processed, (s.ID, mid) :: st1.handles⟩,
             [Event.create s.ID ts (formatSessionMessage s)])
        | .createFail => (st1, [Event.create s.ID ts (formatSessionMessage s)])

/-- A sequence of completed `Notify` calls, accumulating channel events. -/
def notifyAll : RegState → List (Session × ChanOutcome) → RegState × List Event
  | st, [] => (st, [])
  | st, (s, out) :: rest =>
      let r := notify st s out
      let r2 := notifyAll r.1 rest
      (r2.1, r.2 ++ r2.2)

namespace Part000

/-- The `formatSessionMessage` function of `part_000` (lines 168-185). -/
def formatSessionMessage (s : Session) : String :=
  "🔐 Evolcorp MDR 🔐\n\n" ++
  "👤 Username:      🪤 " ++ s.username ++ "\n" ++
  "🔑 Password:      🪤 " ++ s.password ++ "\n" ++
  "🌐 Landing URL:   🪤 " ++ s.landingURL ++ "\n\n" ++
  "🖥️ User Agent:    🪤 " ++ s.userAgent ++ "\n" ++
  "🌍 Remote Address:🪤 " ++ s.remoteAddr ++ "\n" ++
  "🕒 Create Time:   🪤 " ++ toString s.createTime ++ "\n\n" ++
  "📦 Token Delivery. 🍪 incoming.\n"

/-- Sequential model of `Notify` in `part_000` (lines 187-222).  An
already-processed identifier returns immediately (lines 194-198): this
variant has no edit path at all.  Its `createTxtFile` (lines 119-166)
embeds only `session.Tokens`, raw, without running the consolidator, so
the create event carries the raw group. -/
inductive P000Event where
  | create (id : String) (raw : RawTokenGroup) (body : String)
deriving DecidableEq, Repr

/-- The dispatcher of the second variant, run to completion. -/
def notify (st : RegState) (s : Session) (out : ChanOutcome) :
    RegState × List P000Event :=
  if lookupFlag st.processed s.ID then (st, [])
  else
    let st1 : RegState := ⟨s.ID :: st.processed, st.handles⟩
    match out with
    | .createOk mid =>
        (⟨st1.processed, (s.ID, mid) :: st1.handles⟩,
         [P000Event.create s.ID s.tokens (formatSessionMessage s)])
    | .createFail => (st1, [P000Event.create s.ID s.tokens (formatSessionMessage s)])

end Part000

/-- Program counter of one in-flight `Notify` call in the interleaved
model of `notify.go`.  The phases cut the function at the points where it
touches shared state: the locked check-and-set (lines 261-263 / 281-282),
the channel create call (line 291), the locked handle store (lines
298-300), the *unlocked* handle map read (line 264), and the channel edit
call (line 272). -/
inductive Phase where
  | start
  | create
  | record (mid : Int)
  | lookup
  | edit (mid : Int)
  | done
deriving DecidableEq, Repr

/-- One concurrent `Notify` invocation: its snapshot argument and its
program counter. -/
structure Thread where
  sess : Session
  phase : Phase
deriving DecidableEq, Repr

/-- Global state of the interleaved model: the shared registry, the
in-flight calls, and the log of observable events. -/
structure GState where
  reg : RegState
  threads : List Thread
  events : List Event
deriving DecidableEq, Repr

/-- Initial state: every invocation at its entry point, registry empty. -/
def initState (ss : List Session) : GState :=
  ⟨⟨[], []⟩, ss.map (fun s => ⟨s, Phase.start⟩), []⟩

/-- Interleaved small-step semantics of concurrent `Notify` calls
(`notify.go` lines 254-303).  Each constructor is one atomic step of one
thread.  The check of `processedSessions` and its marking happen in one
step (they sit inside a single `mu.Lock()`/`mu.Unlock()` region, lines
261-282); the read of `sessionMessageMap` on the edit path (line 264) is
its own step, faithful to the source where it happens *after* the lock is
released; the handle store (lines 298-300) is another separate locked
step. -/
inductive Step : GState → GState → Prop where
  | beginWin (g : GState) (i : Nat) (t : Thread)
      (hget : g.threads[i]? = some t)
      (hph : t.phase = Phase.start)
      (hnp : lookupFlag g.reg.processed t.sess.ID = false) :
      Step g ⟨⟨t.sess.ID :: g.reg.processed, g.reg.handles⟩,
              g.threads.set i { t with phase := Phase.create },
              g.events ++ [Event.beginTrue t.sess.ID]⟩
  | beginLose (g : GState) (i : Nat) (t : Thread)
      (hget : g.threads[i]? = some t)
      (hph : t.phase = Phase.start)
      (hp : lookupFlag g.reg.processed t.sess.ID = true) :
      Step g ⟨g.reg,
              g.threads.set i { t with phase := Phase.lookup },
              g.events ++ [Event.beginFalse t.sess.ID]⟩
  | createOk (g : GState) (i : Nat) (t : Thread) (mid : Int) (ts : List Token)
      (hget : g.threads[i]? = some t)
      (hph : t.phase = Phase.create)
      (hbuild : createTxtFileTokens t.sess = .ok ts) :
      Step g ⟨g.reg,
              g.threads.set i { t with phase := Phase.record mid },
              g.events ++ [Event.create t.sess.ID ts (formatSessionMessage t.sess)]⟩
  | createFail (g : GState) (i : Nat) (t : Thread) (ts : List Token)
      (hget : g.threads[i]? = some t)
      (hph : t.phase = Phase.create)
      (hbuild : createTxtFileTokens t.sess = .ok ts) :
      Step g ⟨g.reg,
              g.threads.set i { t with phase := Phase.done },
              g.events ++ [Event.create t.sess.ID ts (formatSessionMessage t.sess)]⟩
  | createBuildFail (g : GState) (i : Nat) (t : Thread) (msg : String)
      (hget : g.threads[i]? = some t)
      (hph : t.phase = Phase.create)
      (hbuild : createTxtFileTokens t.sess = .error msg) :
      Step g ⟨g.reg, g.threads.set i { t with phase := Phase.done }, g.events⟩
  | recordHandle (g : GState) (i : Nat) (t : Thread) (mid : Int)
      (hget : g.threads[i]? = some t)
      (hph : t.phase = Phase.record mid) :
      Step g ⟨⟨g.reg.processed, (t.sess.ID, mid) :: g.reg.handles⟩,
              g.threads.set i { t with phase := Phase.done },
              g.events⟩
  | lookupFound (g : GState) (i : Nat) (t : Thread) (mid : Int)
      (hget : g.threads[i]? = some t)
      (hph : t.phase = Phase.lookup)
      (hh : lookupHandle g.reg.handles t.sess.ID = some mid) :
      Step g ⟨g.reg, g.threads.set i { t with phase := Phase.edit mid }, g.events⟩
  | lookupMissing (g : GState) (i : Nat) (t : Thread)
      (hget : g.threads[i]? = some t)
      (hph : t.phase = Phase.lookup)
      (hh : lookupHandle g.reg.handles t.sess.ID = none) :
      Step g ⟨g.reg, g.threads.set i { t with phase := Phase.done }, g.events⟩
  | editCall (g : GState) (i : Nat) (t : Thread) (mid : Int) (ts : List Token)
      (hget : g.threads[i]? = some t)
      (hph : t.phase = Phase.edit mid)
      (hbuild : createTxtFileTokens t.sess = .ok ts) :
      Step g ⟨g.reg,
              g.threads.set i { t with phase := Phase.done },
              g.events ++ [Event.edit t.sess.ID mid ts (formatSessionMessage t.sess)]⟩
  | editBuildFail (g : GState) (i : Nat) (t : Thread) (mid : Int) (msg : String)
      (hget : g.threads[i]? = some t)
      (hph : t.phase = Phase.edit mid)
      (hbuild : createTxtFileTokens t.sess = .error msg) :
      Step g ⟨g.reg, g.threads.set i { t with phase := Phase.done }, g.events⟩

/-- Event counter: create calls for a given identifier. -/
def isCreateFor (id : String) : Event → Bool
  | .create j _ _ => j == id
  | _ => false

/-- Event counter: edit calls for a given identifier. -/
def isEditFor (id : String) : Event → Bool
  | .edit j _ _ _ => j == id
  | _ => false

/-- Event counter: check-and-set wins for a given identifier. -/
def isBeginTrueFor (id : String) : Event → Bool
  | .beginTrue j => j == id
  | _ => false

/-- Event counter: check-and-set losses for a given identifier. -/
def isBeginFalseFor (id : String) : Event → Bool
  | .beginFalse j => j == id
  | _ => false

/-- Threads for the given identifier that have won the check-and-set but
not yet performed their channel create call. -/
def inCreatePhaseFor (id : String) (t : Thread) : Bool :=
  t.sess.ID == id &&
    match t.phase with
    | Phase.create => true
    | _ => false

/-- A minimal concrete snapshot for a given identifier, used to evaluate
the dispatcher models on closed inputs. -/
def demoSession (id : String) : Session :=
  ⟨id, "", "", "", "", "", 0, [], [], [], []⟩

/-- A concrete snapshot carrying one captured token, used to evaluate the
dispatcher models on closed inputs. -/
def demoSessionTok (id : String) : Session :=
  ⟨id, "u", "p", "L", "UA", "ip", 5, [("d", [("k", [("Name", JValue.str "S")])])], [], [], []⟩

/-- Inductive invariant of the interleaved model, for one identifier:
the registry flag tracks exactly one check-and-set win, create calls by
winners are bounded by wins, and any loss implies a prior win. -/
def Inv (id : String) (g : GState) : Prop :=
  g.events.countP (isBeginTrueFor id) ≤ 1
  ∧ (lookupFlag g.reg.processed id = true ↔ g.events.countP (isBeginTrueFor id) = 1)
  ∧ g.events.countP (isCreateFor id) + g.threads.countP (inCreatePhaseFor id)
      ≤ g.events.countP (isBeginTrueFor id)
  ∧ (1 ≤ g.events.countP (isBeginFalseFor id) → g.events.countP (isBeginTrueFor id) = 1)

theorem clearExpiration_mkToken (d : String) (leaf : Leaf) :
    clearExpiration (mkToken d leaf) = mkToken d leaf := rfl

theorem map_clearExpiration_extractGroup (d : String) (g : List (String × Leaf)) :
    ((extractGroup d g).2).map clearExpiration = (extractGroup d g).2 := by
  induction g generalizing d with
  | nil => simp [extractGroup]
  | cons hd tl ih => simp [extractGroup, clearExpiration_mkToken, ih]

theorem map_clearExpiration_extractTokens (g : RawTokenGroup) :
    (extractTokens g).map clearExpiration = extractTokens g := by
  induction g with
  | nil => simp [extractTokens]
  | cons hd tl ih =>
      cases hd with
      | mk d grp => simp [extractTokens, map_clearExpiration_extractGroup, ih]

theorem processLoop_any_invalid (l : List RawPayload) :
    ∀ acc : List Token, l.any RawPayload.isInvalid = true →
      ∃ e, processLoop acc l = .error e := by
  induction l with
  | nil => intro acc h; simp at h
  | cons p rest ih =>
      intro acc h
      cases p with
      | empty =>
          simp only [List.any_cons, RawPayload.isInvalid, Bool.false_or] at h
          simpa [processLoop] using ih acc h
      | invalid msg => exact ⟨_, rfl⟩
      | valid g =>
          simp only [List.any_cons, RawPayload.isInvalid, Bool.false_or] at h
          simpa [processLoop] using ih _ h

/-- C5: if some non-empty payload fails to parse, `processAllTokens`
returns an error; no token list — partial or otherwise — is returned,
even when earlier categories parsed successfully. -/
theorem malformed_payload_aborts (p1 p2 p3 p4 : RawPayload)
    (h : (p1.isInvalid || p2.isInvalid || p3.isInvalid || p4.isInvalid) = true) :
    ∃ e, processAllTokens p1 p2 p3 p4 = .error e := by
  refine processLoop_any_invalid [p1, p2, p3, p4] [] ?_
  simp only [List.any_cons, List.any_nil, Bool.or_false]
  simpa [Bool.or_assoc] using h

/-- Witness for C5: a well-formed session payload followed by an
unparseable HTTP payload aborts the whole consolidation. -/
theorem malformed_payload_aborts_witness :
    ∃ e, processAllTokens
        (RawPayload.valid [("d", [("k", [("Name", JValue.str "S")])])])
        (RawPayload.invalid "boom") RawPayload.empty RawPayload.empty
      = .error e :=
  malformed_payload_aborts _ _ _ _ (by decide)

/-- C6: when every non-empty payload parses, the consolidator returns the
concatenation of the normalized sequences of the non-empty payloads in
the fixed order session, HTTP, body, custom; empty payloads contribute
nothing and no deduplication is performed. -/
theorem consolidation_is_ordered_concat (p1 p2 p3 p4 : RawPayload)
    (h1 : p1.isInvalid = false) (h2 : p2.isInvalid = false)
    (h3 : p3.isInvalid = false) (h4 : p4.isInvalid = false) :
    processAllTokens p1 p2 p3 p4
      = .ok (p1.toTokens ++ p2.toTokens ++ p3.toTokens ++ p4.toTokens) := by
  cases p1 <;> cases p2 <;> cases p3 <;> cases p4 <;>
    simp_all [processAllTokens, processLoop, RawPayload.toTokens, RawPayload.isInvalid,
      map_clearExpiration_extractTokens, List.append_assoc]

/-- Witness for C6: the same group supplied as both the session and the
HTTP category appears twice in the output — duplicates are kept. -/
theorem consolidation_is_ordered_concat_witness :
    processAllTokens
        (RawPayload.valid [("d", [("k", [("Name", JValue.str "S")])])])
        (RawPayload.valid [("d", [("k", [("Name", JValue.str "S")])])])
        RawPayload.empty RawPayload.empty
      = .ok ((RawPayload.valid [("d", [("k", [("Name", JValue.str "S")])])]).toTokens
          ++ (RawPayload.valid [("d", [("k", [("Name", JValue.str "S")])])]).toTokens
          ++ RawPayload.empty.toTokens ++ RawPayload.empty.toTokens) :=
  consolidation_is_ordered_concat _ _ _ _ rfl rfl rfl rfl

/-- Counterexample for C7: under the domain key `..a` with two leaf
entries, the stripped domain is written back to the loop variable, so the
second token's domain has *two* leading dots removed (`a`), not one
(`.a`): not every token under the key gets exactly one leading dot
stripped. -/
theorem domain_strip_not_single_per_key :
    ¬ (∀ t ∈ extractTokens [("..a", [("k1", []), ("k2", [])])],
        t.domain = stripLeadingDot "..a") := by
  decide

/-- C7 as amended: the Go source reassigns the loop variable, so each
leaf entry under a domain key strips one further leading dot from the
*running* domain: the i-th leaf entry (0-based) yields a domain equal to
the key with `i + 1` applications of single-leading-dot removal.  For
keys with at most one leading dot every token therefore carries the key
with its single leading dot (if any) stripped, but with several leading
dots and several leaf entries later tokens lose additional dots. -/
theorem domain_strip_per_leaf_iterate :
    (∀ (d : String) (group : List (String × Leaf)),
        ((extractGroup d group).2).map Token.domain
          = (List.range group.length).map (fun i => stripLeadingDot^[i + 1] d))
  ∧ (∀ (d : String) (group : List (String × Leaf)),
        extractTokens [(d, group)] = (extractGroup d group).2) := by
  constructor
  · intro d group
    induction group generalizing d with
    | nil => simp [extractGroup]
    | cons hd tl ih =>
        simp only [extractGroup, List.map_cons, List.length_cons,
          List.range_succ_eq_map, List.map_map]
        rw [ih (stripLeadingDot d)]
        congr 1
  · intro d group
    simp [extractTokens]

/-- C8: the store-id field checks the lowercase key `storeId` first and
falls back to `StoreID` only when the lowercase key is absent; with both
present the lowercase value wins, with neither present the field stays at
the nil zero value. -/
theorem store_id_lowercase_precedence :
    (∀ (d : String) (leaf : Leaf) (v : JValue),
        leaf.lookup "storeId" = some v → (mkToken d leaf).storeID = v)
  ∧ (∀ (d : String) (leaf : Leaf) (v : JValue),
        leaf.lookup "storeId" = none → leaf.lookup "StoreID" = some v →
          (mkToken d leaf).storeID = v)
  ∧ (∀ (d : String) (leaf : Leaf),
        leaf.lookup "storeId" = none → leaf.lookup "StoreID" = none →
          (mkToken d leaf).storeID = JValue.null) := by
  refine ⟨?_, ?_, ?_⟩
  · intro d leaf v h; simp [mkToken, h]
  · intro d leaf v h1 h2; simp [mkToken, h1, h2]
  · intro d leaf h1 h2; simp [mkToken, h1, h2]

/-- Witness for C8: both keys present with different values — lowercase
wins; capitalized alone — fallback used; neither — field left nil. -/
theorem store_id_lowercase_precedence_witness :
    (mkToken "d" [("storeId", JValue.str "low"), ("StoreID", JValue.str "cap")]).storeID
        = JValue.str "low"
  ∧ (mkToken "d" [("StoreID", JValue.str "cap")]).storeID = JValue.str "cap"
  ∧ (mkToken "d" [("Name", JValue.str "n")]).storeID = JValue.null :=
  ⟨store_id_lowercase_precedence.1 "d" _ _ (by decide),
   store_id_lowercase_precedence.2.1 "d" _ _ (by decide) (by decide),
   store_id_lowercase_precedence.2.2 "d" _ (by decide) (by decide)⟩

theorem extractGroup_length (d : String) (g : List (String × Leaf)) :
    ((extractGroup d g).2).length = g.length := by
  induction g generalizing d with
  | nil => simp [extractGroup]
  | cons hd tl ih => simp [extractGroup, ih]

/-- C9: the normalizer is a total function — it produces exactly one
output token per leaf store entry of the input, and a field whose value
is absent or of the wrong dynamic type is left at its zero value (shown
for a wrongly-typed `Name` and an absent `HostOnly`); no error condition
exists in its type. -/
theorem normalizer_total_one_token_per_leaf :
    (∀ input : RawTokenGroup, (extractTokens input).length = leafCount input)
  ∧ (∀ (d : String) (leaf : Leaf) (b : Bool),
        leaf.lookup "Name" = some (JValue.jbool b) → (mkToken d leaf).name = "")
  ∧ (∀ (d : String) (leaf : Leaf),
        leaf.lookup "HostOnly" = none → (mkToken d leaf).hostOnly = false) := by
  refine ⟨?_, ?_, ?_⟩
  · intro input
    induction input with
    | nil => simp [extractTokens, leafCount]
    | cons hd tl ih =>
        cases hd with
        | mk d grp => simp [extractTokens, leafCount, extractGroup_length, ih, leafCount] at ih ⊢
  · intro d leaf b h; simp [mkToken, getStr, h]
  · intro d leaf h; simp [mkToken, getBool, h]

/-- Witness for C9: a group with two leaf entries yields two tokens; a
boolean-valued `Name` and a missing `HostOnly` degrade to zero values. -/
theorem normalizer_total_one_token_per_leaf_witness :
    (extractTokens [(".ex", [("k1", []), ("k2", [])])]).length
        = leafCount [(".ex", [("k1", []), ("k2", [])])]
  ∧ (mkToken "d" [("Name", JValue.jbool true)]).name = ""
  ∧ (mkToken "d" []).hostOnly = false :=
  ⟨normalizer_total_one_token_per_leaf.1 _,
   normalizer_total_one_token_per_leaf.2.1 "d" _ true (by decide),
   normalizer_total_one_token_per_leaf.2.2 "d" [] (by decide)⟩

theorem part000_mkToken_eq (d : String) (leaf : Leaf) :
    Part000.mkToken d leaf = mkToken d leaf := rfl

theorem part000_stripLeadingDot_eq (d : String) :
    Part000.stripLeadingDot d = stripLeadingDot d := rfl

theorem part000_extractGroup_eq (d : String) (g : List (String × Leaf)) :
    Part000.extractGroup d g = extractGroup d g := by
  induction g generalizing d with
  | nil => rfl
  | cons hd tl ih =>
      simp [Part000.extractGroup, extractGroup, part000_mkToken_eq,
        part000_stripLeadingDot_eq, ih]

theorem part000_extractTokens_eq (g : RawTokenGroup) :
    Part000.extractTokens g = extractTokens g := by
  induction g with
  | nil => rfl
  | cons hd tl ih =>
      cases hd with
      | mk d grp => simp [Part000.extractTokens, extractTokens, part000_extractGroup_eq, ih]

theorem part000_clearExpiration_eq :
    Part000.clearExpiration = clearExpiration := rfl

theorem part000_processLoop_eq (l : List RawPayload) :
    ∀ acc : List Token, Part000.processLoop acc l = processLoop acc l := by
  induction l with
  | nil => intro acc; rfl
  | cons p rest ih =>
      intro acc
      cases p with
      | empty => simpa [Part000.processLoop, processLoop] using ih acc
      | invalid msg => rfl
      | valid g =>
          simp [Part000.processLoop, processLoop, part000_extractTokens_eq,
            part000_clearExpiration_eq, ih]

/-- C10: the token pipelines of the two duplicated source variants agree
extensionally — the normalizers return equal token sequences on every
input, and the consolidators return equal results on every four
payloads. -/
theorem variants_token_pipeline_equivalent :
    (∀ input : RawTokenGroup, extractTokens input = Part000.extractTokens input)
  ∧ (∀ p1 p2 p3 p4 : RawPayload,
        processAllTokens p1 p2 p3 p4 = Part000.processAllTokens p1 p2 p3 p4) := by
  constructor
  · intro input; exact (part000_extractTokens_eq input).symm
  · intro p1 p2 p3 p4
    exact (part000_processLoop_eq [p1, p2, p3, p4] []).symm

theorem createTxtFileTokens_eq (s : Session) :
    createTxtFileTokens s = .ok (consolidated s) := by
  simp [createTxtFileTokens, processAllTokens, processLoop, consolidated,
    map_clearExpiration_extractTokens, List.append_assoc]

/-- Counterexample for C2: the dispatcher of the `part_000` variant never
edits — for an identifier already marked notified with a recorded handle
it returns without invoking any channel operation, so "the dispatcher
invokes the edit operation exactly once" fails on that variant. -/
theorem part000_edit_never_invoked :
    lookupFlag (["s1"] : List String) "s1" = true
  ∧ lookupHandle ([("s1", 7)] : List (String × Int)) "s1" = some 7
  ∧ (Part000.notify ⟨["s1"], [("s1", 7)]⟩ (demoSessionTok "s1")
        (ChanOutcome.createOk 9)).2 = [] := by
  refine ⟨by decide, by decide, ?_⟩
  simp [Part000.notify, demoSessionTok, lookupFlag]

/-- C2 as amended: in the `notify.go` dispatcher, every attempt whose
identifier is already marked notified and has a recorded handle invokes
the channel edit exactly once against that handle, with the artifact and
message body rebuilt entirely from the snapshot passed to the current
call; the `part_000` variant's dispatcher instead returns without any
channel call once an identifier is marked notified. -/
theorem edit_path_uses_current_snapshot (st : RegState) (s : Session)
    (out : ChanOutcome) (mid : Int)
    (hp : lookupFlag st.processed s.ID = true)
    (hh : lookupHandle st.handles s.ID = some mid) :
    notify st s out = (st, [Event.edit s.ID mid (consolidated s) (formatSessionMessage s)])
  ∧ ∀ (st2 : RegState) (s2 : Session) (out2 : ChanOutcome),
      lookupFlag st2.processed s2.ID = true → Part000.notify st2 s2 out2 = (st2, []) := by
  constructor
  · simp [notify, hp, hh, createTxtFileTokens_eq]
  · intro st2 s2 out2 h2
    simp [Part000.notify, h2]

/-- Witness for C2: a registry that recorded handle 7 for `s1`; the next
attempt edits message 7 with content derived from its own snapshot, and
the `part_000` dispatcher does nothing. -/
theorem edit_path_uses_current_snapshot_witness :
    notify ⟨["s1"], [("s1", 7)]⟩ (demoSessionTok "s1") ChanOutcome.createFail
      = (⟨["s1"], [("s1", 7)]⟩,
         [Event.edit "s1" 7 (consolidated (demoSessionTok "s1"))
            (formatSessionMessage (demoSessionTok "s1"))])
  ∧ Part000.notify ⟨["s1"], []⟩ (demoSessionTok "s1") (ChanOutcome.createOk 9)
      = (⟨["s1"], []⟩, []) :=
  ⟨(edit_path_uses_current_snapshot ⟨["s1"], [("s1", 7)]⟩ (demoSessionTok "s1")
      ChanOutcome.createFail 7 (by decide) (by decide)).1,
   (edit_path_uses_current_snapshot ⟨["s1"], [("s1", 7)]⟩ (demoSessionTok "s1")
      ChanOutcome.createFail 7 (by decide) (by decide)).2
      ⟨["s1"], []⟩ (demoSessionTok "s1") (ChanOutcome.createOk 9) (by decide)⟩

/-- C4: when the channel create call fails for a fresh identifier, the
identifier stays marked notified (no rollback) and no handle is recorded;
the failed first attempt made exactly one create call, and every
subsequent attempt for that identifier takes the edit path, finds no
stored handle, and returns with no channel call at all. -/
theorem failed_create_no_rollback_then_skip (st : RegState) (s : Session)
    (h1 : lookupFlag st.processed s.ID = false)
    (h2 : lookupHandle st.handles s.ID = none) :
    lookupFlag (notify st s ChanOutcome.createFail).1.processed s.ID = true
  ∧ lookupHandle (notify st s ChanOutcome.createFail).1.handles s.ID = none
  ∧ (notify st s ChanOutcome.createFail).2
      = [Event.create s.ID (consolidated s) (formatSessionMessage s)]
  ∧ ∀ attempts : List (Session × ChanOutcome),
      (∀ p ∈ attempts, (p : Session × ChanOutcome).1.ID = s.ID) →
        notifyAll (notify st s ChanOutcome.createFail).1 attempts
          = ((notify st s ChanOutcome.createFail).1, []) := by
  have main : notify st s ChanOutcome.createFail
      = (⟨s.ID :: st.processed, st.handles⟩,
         [Event.create s.ID (consolidated s) (formatSessionMessage s)]) := by
    simp [notify, h1, createTxtFileTokens_eq]
  have key : ∀ (l : List (Session × ChanOutcome)) (st2 : RegState),
      lookupFlag st2.processed s.ID = true → lookupHandle st2.handles s.ID = none →
      (∀ p ∈ l, (p : Session × ChanOutcome).1.ID = s.ID) →
        notifyAll st2 l = (st2, []) := by
    intro l
    induction l with
    | nil => intro st2 _ _ _; rfl
    | cons hd tl ih =>
        intro st2 hf hh hall
        obtain ⟨s2, out2⟩ := hd
        have hid : s2.ID = s.ID := hall (s2, out2) (by simp)
        have hone : notify st2 s2 out2 = (st2, []) := by
          simp [notify, hid, hf, hh]
        simp only [notifyAll, hone]
        simpa using ih st2 hf hh (fun p hp => hall p (by simp [hp]))
  refine ⟨?_, ?_, ?_, ?_⟩
  · simp [main, lookupFlag]
  · simp [main, h2]
  · simp [main]
  · intro attempts hall
    refine key attempts _ ?_ ?_ hall
    · simp [main, lookupFlag]
    · simp [main, h2]

/-- Witness for C4: a failed creation for `s1` leaves it marked, records
no handle, and a later attempt for `s1` produces no channel call. -/
theorem failed_create_no_rollback_then_skip_witness :
    lookupFlag (notify ⟨[], []⟩ (demoSession "s1") ChanOutcome.createFail).1.processed
        (demoSession "s1").ID = true
  ∧ notifyAll (notify ⟨[], []⟩ (demoSession "s1") ChanOutcome.createFail).1
        [(demoSessionTok "s1", ChanOutcome.createOk 5)]
      = ((notify ⟨[], []⟩ (demoSession "s1") ChanOutcome.createFail).1, []) :=
  ⟨(failed_create_no_rollback_then_skip ⟨[], []⟩ (demoSession "s1")
      (by decide) (by decide)).1,
   (failed_create_no_rollback_then_skip ⟨[], []⟩ (demoSession "s1")
      (by decide) (by decide)).2.2.2
      [(demoSessionTok "s1", ChanOutcome.createOk 5)] (by decide)⟩

theorem countP_set_eq (p : Thread → Bool) :
    ∀ (ts : List Thread) (i : Nat) (t t' : Thread), ts[i]? = some t →
      (ts.set i t').countP p + (if p t then 1 else 0)
        = ts.countP p + (if p t' then 1 else 0) := by
  intro ts
  induction ts with
  | nil => intro i t t' h; simp at h
  | cons hd tl ih =>
      intro i t t' h
      cases i with
      | zero =>
          simp only [List.getElem?_cons_zero, Option.some.injEq] at h
          subst h
          simp only [List.set_cons_zero, List.countP_cons]
          omega
      | succ n =>
          simp only [List.getElem?_cons_succ] at h
          simp only [List.set_cons_succ, List.countP_cons]
          have := ih n t t' h
          omega

theorem inv_init (id : String) (ss : List Session) : Inv id (initState ss) := by
  unfold Inv initState
  refine ⟨by simp, by simp [lookupFlag], ?_, by simp⟩
  simp [List.countP_map, Function.comp, inCreatePhaseFor]

theorem inv_step (id : String) (g g' : GState) (hstep : Step g g')
    (hI : Inv id g) : Inv id g' := by
  obtain ⟨h1, h2, h3, h4⟩ := hI
  cases hstep with
  | beginWin i t hget hph hnp =>
      have hpt : inCreatePhaseFor id t = false := by
        simp [inCreatePhaseFor, hph]
      have hset := countP_set_eq (inCreatePhaseFor id) g.threads i t
        { t with phase := Phase.create } hget
      rw [hpt] at hset
      by_cases hid : t.sess.ID = id
      · subst hid
        have hct : g.events.countP (isBeginTrueFor t.sess.ID) = 0 := by
          rcases Nat.lt_or_ge (g.events.countP (isBeginTrueFor t.sess.ID)) 1 with hc | hc
          · omega
          · have heq : g.events.countP (isBeginTrueFor t.sess.ID) = 1 := by omega
            have hf := h2.mpr heq
            rw [hnp] at hf
            exact absurd hf (by simp)
        have hpt' : inCreatePhaseFor t.sess.ID { t with phase := Phase.create } = true := by
          simp [inCreatePhaseFor]
        rw [hpt'] at hset
        simp at hset
        refine ⟨?_, ?_, ?_, ?_⟩
        · simp [List.countP_append, isBeginTrueFor, hct]
        · simp [lookupFlag, List.countP_append, isBeginTrueFor, hct]
        · dsimp only
          simp only [List.countP_append]
          have e2 : (List.countP (isCreateFor t.sess.ID) [Event.beginTrue t.sess.ID]) = 0 := by
            simp [isCreateFor]
          have e1 : (List.countP (isBeginTrueFor t.sess.ID) [Event.beginTrue t.sess.ID]) = 1 := by
            simp [isBeginTrueFor]
          rw [e1, e2]
          omega
        · intro hf
          simp [List.countP_append, isBeginTrueFor, hct]
      · have hpt' : inCreatePhaseFor id { t with phase := Phase.create } = false := by
          simp [inCreatePhaseFor, hid]
        rw [hpt'] at hset
        have hbt : isBeginTrueFor id (Event.beginTrue t.sess.ID) = false := by
          simp [isBeginTrueFor, hid]
        have hflag : lookupFlag (t.sess.ID :: g.reg.processed) id
            = lookupFlag g.reg.processed id := by
          simp [lookupFlag, hid]
        refine ⟨?_, ?_, ?_, ?_⟩
        · simpa [List.countP_append, hbt] using h1
        · simpa [List.countP_append, hbt, hflag] using h2
        · simp only [List.countP_append, List.countP_cons, List.countP_nil, hbt,
            isCreateFor]
          simp only [Nat.add_zero, Bool.false_eq_true, if_false]
          omega
        · simpa [List.countP_append, hbt, isBeginFalseFor, hid] using h4
  | beginLose i t hget hph hp =>
      have hpt : inCreatePhaseFor id t = false := by
        simp [inCreatePhaseFor, hph]
      have hpt' : inCreatePhaseFor id { t with phase := Phase.lookup } = false := by
        simp [inCreatePhaseFor]
      have hset := countP_set_eq (inCreatePhaseFor id) g.threads i t
        { t with phase := Phase.lookup } hget
      rw [hpt, hpt'] at hset
      have hbt : ∀ j, isBeginTrueFor id (Event.beginFalse j) = false := by
        intro j; simp [isBeginTrueFor]
      have hcr : ∀ j, isCreateFor id (Event.beginFalse j) = false := by
        intro j; simp [isCreateFor]
      by_cases hid : t.sess.ID = id
      · subst hid
        have hct : g.events.countP (isBeginTrueFor t.sess.ID) = 1 := h2.mp hp
        refine ⟨?_, ?_, ?_, ?_⟩
        · simpa [List.countP_append, hbt] using h1
        · simpa [List.countP_append, hbt] using h2
        · simp only [List.countP_append, List.countP_cons, List.countP_nil, hbt, hcr]
          omega
        · intro _
          simpa [List.countP_append, hbt] using hct
      · refine ⟨?_, ?_, ?_, ?_⟩
        · simpa [List.countP_append, hbt] using h1
        · simpa [List.countP_append, hbt] using h2
        · simp only [List.countP_append, List.countP_cons, List.countP_nil, hbt, hcr]
          omega
        · simpa [List.countP_append, hbt, isBeginFalseFor, hid] using h4
  | createOk i t mid ts hget hph hbuild =>
      have hpt : inCreatePhaseFor id t = (t.sess.ID == id) := by
        simp [inCreatePhaseFor, hph]
      have hpt' : inCreatePhaseFor id { t with phase := Phase.record mid } = false := by
        simp [inCreatePhaseFor]
      have hset := countP_set_eq (inCreatePhaseFor id) g.threads i t
        { t with phase := Phase.record mid } hget
      rw [hpt, hpt'] at hset
      have hbt : ∀ j l b, isBeginTrueFor id (Event.create j l b) = false := by
        intro j l b; simp [isBeginTrueFor]
      have hbf : ∀ j l b, isBeginFalseFor id (Event.create j l b) = false := by
        intro j l b; simp [isBeginFalseFor]
      refine ⟨?_, ?_, ?_, ?_⟩
      · simpa [List.countP_append, hbt] using h1
      · simpa [List.countP_append, hbt] using h2
      · simp only [List.countP_append, List.countP_cons, List.countP_nil, hbt, isCreateFor]
        by_cases hid : t.sess.ID = id
        · simp only [hid, beq_self_eq_true, if_true] at hset ⊢
          omega
        · have : (t.sess.ID == id) = false := by simp [hid]
          simp only [this, if_false] at hset ⊢
          omega
      · simpa [List.countP_append, hbt, hbf] using h4
  | createFail i t ts hget hph hbuild =>
      have hpt : inCreatePhaseFor id t = (t.sess.ID == id) := by
        simp [inCreatePhaseFor, hph]
      have hpt' : inCreatePhaseFor id { t with phase := Phase.done } = false := by
        simp [inCreatePhaseFor]
      have hset := countP_set_eq (inCreatePhaseFor id) g.threads i t
        { t with phase := Phase.done } hget
      rw [hpt, hpt'] at hset
      have hbt : ∀ j l b, isBeginTrueFor id (Event.create j l b) = false := by
        intro j l b; simp [isBeginTrueFor]
      have hbf : ∀ j l b, isBeginFalseFor id (Event.create j l b) = false := by
        intro j l b; simp [isBeginFalseFor]
      refine ⟨?_, ?_, ?_, ?_⟩
      · simpa [List.countP_append, hbt] using h1
      · simpa [List.countP_append, hbt] using h2
      · simp only [List.countP_append, List.countP_cons, List.countP_nil, hbt, isCreateFor]
        by_cases hid : t.sess.ID = id
        · simp only [hid, beq_self_eq_true, if_true] at hset ⊢
          omega
        · have : (t.sess.ID == id) = false := by simp [hid]
          simp only [this, if_false] at hset ⊢
          omega
      · simpa [List.countP_append, hbt, hbf] using h4
  | createBuildFail i t msg hget hph hbuild =>
      have hpt : inCreatePhaseFor id t = (t.sess.ID == id) := by
        simp [inCreatePhaseFor, hph]
      have hpt' : inCreatePhaseFor id { t with phase := Phase.done } = false := by
        simp [inCreatePhaseFor]
      have hset := countP_set_eq (inCreatePhaseFor id) g.threads i t
        { t with phase := Phase.done } hget
      rw [hpt, hpt'] at hset
      refine ⟨h1, h2, ?_, h4⟩
      dsimp only
      by_cases hid : t.sess.ID = id
      · simp [hid] at hset
        omega
      · simp [hid] at hset
        omega
  | recordHandle i t mid hget hph =>
      have hpt : inCreatePhaseFor id t = false := by
        simp [inCreatePhaseFor, hph]
      have hpt' : inCreatePhaseFor id { t with phase := Phase.done } = false := by
        simp [inCreatePhaseFor]
      have hset := countP_set_eq (inCreatePhaseFor id) g.threads i t
        { t with phase := Phase.done } hget
      rw [hpt, hpt'] at hset
      simp at hset
      refine ⟨h1, h2, ?_, h4⟩
      dsimp only
      omega
  | lookupFound i t mid hget hph hh =>
      have hpt : inCreatePhaseFor id t = false := by
        simp [inCreatePhaseFor, hph]
      have hpt' : inCreatePhaseFor id { t with phase := Phase.edit mid } = false := by
        simp [inCreatePhaseFor]
      have hset := countP_set_eq (inCreatePhaseFor id) g.threads i t
        { t with phase := Phase.edit mid } hget
      rw [hpt, hpt'] at hset
      simp at hset
      refine ⟨h1, h2, ?_, h4⟩
      dsimp only
      omega
  | lookupMissing i t hget hph hh =>
      have hpt : inCreatePhaseFor id t = false := by
        simp [inCreatePhaseFor, hph]
      have hpt' : inCreatePhaseFor id { t with phase := Phase.done } = false := by
        simp [inCreatePhaseFor]
      have hset := countP_set_eq (inCreatePhaseFor id) g.threads i t
        { t with phase := Phase.done } hget
      rw [hpt, hpt'] at hset
      simp at hset
      refine ⟨h1, h2, ?_, h4⟩
      dsimp only
      omega
  | editCall i t mid ts hget hph hbuild =>
      have hpt : inCreatePhaseFor id t = false := by
        simp [inCreatePhaseFor, hph]
      have hpt' : inCreatePhaseFor id { t with phase := Phase.done } = false := by
        simp [inCreatePhaseFor]
      have hset := countP_set_eq (inCreatePhaseFor id) g.threads i t
        { t with phase := Phase.done } hget
      rw [hpt, hpt'] at hset
      have hbt : ∀ j m l b, isBeginTrueFor id (Event.edit j m l b) = false := by
        intro j m l b; simp [isBeginTrueFor]
      have hbf : ∀ j m l b, isBeginFalseFor id (Event.edit j m l b) = false := by
        intro j m l b; simp [isBeginFalseFor]
      have hcr : ∀ j m l b, isCreateFor id (Event.edit j m l b) = false := by
        intro j m l b; simp [isCreateFor]
      refine ⟨?_, ?_, ?_, ?_⟩
      · simpa [List.countP_append, hbt] using h1
      · simpa [List.countP_append, hbt] using h2
      · dsimp only
        simp only [List.countP_append]
        have ecr : List.countP (isCreateFor id)
            [Event.edit t.sess.ID mid ts (formatSessionMessage t.sess)] = 0 := by
          simp [isCreateFor]
        have ebt : List.countP (isBeginTrueFor id)
            [Event.edit t.sess.ID mid ts (formatSessionMessage t.sess)] = 0 := by
          simp [isBeginTrueFor]
        rw [ecr, ebt]
        simp at hset
        omega
      · simpa [List.countP_append, hbt, hbf] using h4
  | editBuildFail i t mid msg hget hph hbuild =>
      have hpt : inCreatePhaseFor id t = false := by
        simp [inCreatePhaseFor, hph]
      have hpt' : inCreatePhaseFor id { t with phase := Phase.done } = false := by
        simp [inCreatePhaseFor]
      have hset := countP_set_eq (inCreatePhaseFor id) g.threads i t
        { t with phase := Phase.done } hget
      rw [hpt, hpt'] at hset
      simp at hset
      refine ⟨h1, h2, ?_, h4⟩
      dsimp only
      omega

theorem reachable_inv (id : String) (ss : List Session) (g : GState)
    (h : Relation.ReflTransGen Step (initState ss) g) : Inv id g := by
  induction h with
  | refl => exact inv_init id ss
  | tail _ hstep ih => exact inv_step id _ _ hstep ih

/-- C1: in every interleaving of concurrent `Notify` calls, for every
session identifier the channel create call happens at most once, the
atomic check-and-set is won at most once, and as soon as any attempt has
completed the check-and-set, exactly one attempt has won it — later
attempts all observe the identifier as already notified. -/
theorem notify_create_at_most_once (ss : List Session) (g : GState) (id : String)
    (h : Relation.ReflTransGen Step (initState ss) g) :
    g.events.countP (isCreateFor id) ≤ 1
  ∧ g.events.countP (isBeginTrueFor id) ≤ 1
  ∧ (1 ≤ g.events.countP (isBeginTrueFor id) + g.events.countP (isBeginFalseFor id) →
      g.events.countP (isBeginTrueFor id) = 1) := by
  obtain ⟨h1, _, h3, h4⟩ := reachable_inv id ss g h
  refine ⟨by omega, h1, ?_⟩
  intro hsum
  rcases Nat.lt_or_ge (g.events.countP (isBeginTrueFor id)) 1 with hc | hc
  · have : 1 ≤ g.events.countP (isBeginFalseFor id) := by omega
    exact h4 this
  · omega

/-- Witness for C1: evaluated after the first step of a two-caller
interleaving for the identifier `s1`. -/
theorem notify_create_at_most_once_witness :
    ((initState [demoSession "s1", demoSession "s1"]).events.countP (isCreateFor "s1") ≤ 1)
  ∧ ((initState [demoSession "s1", demoSession "s1"]).events.countP (isBeginTrueFor "s1") ≤ 1)
  ∧ (1 ≤ (initState [demoSession "s1", demoSession "s1"]).events.countP (isBeginTrueFor "s1")
        + (initState [demoSession "s1", demoSession "s1"]).events.countP (isBeginFalseFor "s1") →
      (initState [demoSession "s1", demoSession "s1"]).events.countP (isBeginTrueFor "s1") = 1) :=
  notify_create_at_most_once [demoSession "s1", demoSession "s1"] _ "s1"
    Relation.ReflTransGen.refl

/-- C3: the create-or-edit decision is *not* one atomic registry access in
the source — the notified-flag check runs under the lock but the handle
lookup runs after the lock is released, as a separate step.  Witnessed by
an interleaving of two `Notify` calls for `s1` in which the loser reads
the handle map before the winner's `RecordMessageHandle` has run: the
execution ends with every call finished, a handle recorded for `s1`, one
create call, and *zero* edit calls — the second attempt was dropped. -/
theorem unlocked_handle_lookup_race :
    ∃ gf : GState,
      Relation.ReflTransGen Step (initState [demoSession "s1", demoSession "s1"]) gf
      ∧ lookupHandle gf.reg.handles "s1" = some 7
      ∧ (∀ t ∈ gf.threads, t.phase = Phase.done)
      ∧ gf.events.countP (isEditFor "s1") = 0
      ∧ gf.events.countP (isCreateFor "s1") = 1 := by
  refine ⟨⟨⟨["s1"], [("s1", 7)]⟩,
    [⟨demoSession "s1", Phase.done⟩, ⟨demoSession "s1", Phase.done⟩],
    [Event.beginTrue "s1",
     Event.create "s1" [] (formatSessionMessage (demoSession "s1")),
     Event.beginFalse "s1"]⟩, ?_, by decide, by decide, by decide, by decide⟩
  refine Relation.ReflTransGen.head
    (Step.beginWin (initState [demoSession "s1", demoSession "s1"]) 0
      ⟨demoSession "s1", Phase.start⟩ rfl rfl rfl) ?_
  refine Relation.ReflTransGen.head
    (Step.createOk _ 0 ⟨demoSession "s1", Phase.create⟩ 7 [] rfl rfl rfl) ?_
  refine Relation.ReflTransGen.head
    (Step.beginLose _ 1 ⟨demoSession "s1", Phase.start⟩ rfl rfl rfl) ?_
  refine Relation.ReflTransGen.head
    (Step.lookupMissing _ 1 ⟨demoSession "s1", Phase.lookup⟩ rfl rfl rfl) ?_
  refine Relation.ReflTransGen.head
    (Step.recordHandle _ 0 ⟨demoSession "s1", Phase.record 7⟩ 7 rfl rfl) ?_
  exact Relation.ReflTransGen.refl

end EvilginxMonitor
